import Mathlib

/-!
Verification of the syncarr synchronization engine (github.com/nullable-eth/syncarr).

This file gives a shallow embedding, in Lean 4, of the decision logic of the
engine: the unified transfer wrapper (internal/transfer/transfer.go), the
metadata differ (the orchestrator part of internal/discovery/content_matcher.go),
the content matcher (ContentMatcher.MatchItemsByFilename), orphan cleanup
(SyncOrchestrator.cleanupOrphanedFiles), the watch-state reconciliation
(internal/metadata Synchronizer.syncWatchedState), the library refresh
coordinator (internal/discovery LibraryManager), and the three-stage path
mapping (internal/config Config.MapSourcePathToLocal / MapLocalPathToDest).

Go strings are modelled as lists of characters (`GoStr`); Go's `map` assignment
and lookup are modelled by folds that keep the latest binding; Go's `float64`
rating values are modelled by exact rationals, with the Go `int64(x)`
conversion modelled as truncation toward zero (`Int.tdiv`); fallible Go
functions returning `error` are modelled with `Option`/`Except`.  The program
is built for Linux (see the repository Dockerfile), so `filepath.ToSlash` and
`filepath.FromSlash` are identities and the path separator is `/`.
-/

namespace Syncarr

/-- Go strings, modelled as lists of characters. -/
abbrev GoStr := List Char

/-! ## Metadata differ: tag-set comparison
Source: internal/discovery/content_matcher.go, orchestrator section,
`compareTagArrays`, `compareCollectionArrays`, `extractTags`,
`extractCollectionTags`. -/

/-- A Plex tag record (`plex.Genre` / `plex.Label`): only the `Tag` string is
used by the comparison. -/
structure Tag where
  tag : GoStr
deriving DecidableEq

/-- A Plex collection record (`plex.Collection`): only the `Tag` string is used. -/
structure Collection where
  tag : GoStr
deriving DecidableEq

/-- `extractTags`: extract tag strings from Genre or Label arrays. -/
def extractTags (items : List Tag) : List GoStr :=
  items.map (·.tag)

/-- `extractCollectionTags`: extract tag strings from Collection arrays. -/
def extractCollectionTags (collections : List Collection) : List GoStr :=
  collections.map (·.tag)

/-- The comparison body shared verbatim by `compareTagArrays` and
`compareCollectionArrays` in the Go source: if the two extracted tag lists have
different lengths, report a difference; otherwise build membership maps and
check that every source tag exists in the destination map.  Ranging over the
keys of the source map and ranging over the source list decide the same
boolean, since the keys of the map are exactly the list's elements. -/
def goTagSetCompare (sourceTags destTags : List GoStr) : Bool :=
  if sourceTags.length ≠ destTags.length then
    false
  else
    sourceTags.all (fun t => destTags.contains t)

/-- `compareTagArrays`: compares arrays of tags (Genre/Label). -/
def compareTagArrays (source dest : List Tag) : Bool :=
  goTagSetCompare (extractTags source) (extractTags dest)

/-- `compareCollectionArrays`: compares arrays of collections. -/
def compareCollectionArrays (source dest : List Collection) : Bool :=
  goTagSetCompare (extractCollectionTags source) (extractCollectionTags dest)

theorem goTagSetCompare_eq_true_iff (a b : List GoStr) :
    goTagSetCompare a b = true ↔ a.length = b.length ∧ ∀ t ∈ a, t ∈ b := by
  unfold goTagSetCompare
  by_cases h : a.length = b.length
  · simp [h, List.all_eq_true]
  · simp [h]

theorem goTagSetCompare_nodup_iff (a b : List GoStr)
    (ha : a.Nodup) (hb : b.Nodup) :
    goTagSetCompare a b = true ↔ ∀ t, t ∈ a ↔ t ∈ b := by
  rw [goTagSetCompare_eq_true_iff]
  constructor
  · rintro ⟨hlen, hsub⟩
    have hsub' : a.toFinset ⊆ b.toFinset := fun x hx =>
      List.mem_toFinset.mpr (hsub x (List.mem_toFinset.mp hx))
    have hcard : b.toFinset.card ≤ a.toFinset.card := by
      rw [List.toFinset_card_of_nodup ha, List.toFinset_card_of_nodup hb]
      omega
    have hfs := Finset.eq_of_subset_of_card_le hsub' hcard
    intro t
    rw [← List.mem_toFinset, ← List.mem_toFinset (l := b), hfs]
  · intro hiff
    have hfs : a.toFinset = b.toFinset := by
      ext x
      rw [List.mem_toFinset, List.mem_toFinset]
      exact hiff x
    refine ⟨?_, fun t ht => (hiff t).mp ht⟩
    have hc := congrArg Finset.card hfs
    rwa [List.toFinset_card_of_nodup ha, List.toFinset_card_of_nodup hb] at hc

/-- C2: REFUTED as stated.  With duplicate entries the comparison can report
"no difference" for collections that are not equal as sets: the source tag
list `[a, a]` and the destination tag list `[a, b]` have equal length and
every source tag occurs in the destination, so `compareTagArrays` reports no
difference, yet `b` belongs to the destination set and not to the source set. -/
theorem C2_counterexample :
    compareTagArrays [⟨['a']⟩, ⟨['a']⟩] [⟨['a']⟩, ⟨['b']⟩] = true ∧
      ¬ (∀ t, t ∈ extractTags [⟨['a']⟩, ⟨['a']⟩] ↔ t ∈ extractTags [⟨['a']⟩, ⟨['b']⟩]) := by
  refine ⟨by decide, fun h => ?_⟩
  have hb := (h ['b']).mpr (by decide)
  revert hb
  decide

/-- C2 (amended): the comparison reports "no difference" iff the two extracted
tag lists have equal length and every source tag occurs in the destination
list (insertion order irrelevant); when both collections are duplicate-free
this is equivalent to equality as sets.  Stated both for the tag (label/genre)
comparison and for the collection comparison. -/
theorem C2_tag_comparison_characterization :
    (∀ source dest : List Tag,
      (compareTagArrays source dest = true ↔
        (extractTags source).length = (extractTags dest).length ∧
          ∀ t ∈ extractTags source, t ∈ extractTags dest) ∧
      ((extractTags source).Nodup → (extractTags dest).Nodup →
        (compareTagArrays source dest = true ↔
          ∀ t, t ∈ extractTags source ↔ t ∈ extractTags dest))) ∧
    (∀ source dest : List Collection,
      (compareCollectionArrays source dest = true ↔
        (extractCollectionTags source).length = (extractCollectionTags dest).length ∧
          ∀ t ∈ extractCollectionTags source, t ∈ extractCollectionTags dest) ∧
      ((extractCollectionTags source).Nodup → (extractCollectionTags dest).Nodup →
        (compareCollectionArrays source dest = true ↔
          ∀ t, t ∈ extractCollectionTags source ↔ t ∈ extractCollectionTags dest))) := by
  constructor
  · intro source dest
    exact ⟨goTagSetCompare_eq_true_iff _ _, fun ha hb => goTagSetCompare_nodup_iff _ _ ha hb⟩
  · intro source dest
    exact ⟨goTagSetCompare_eq_true_iff _ _, fun ha hb => goTagSetCompare_nodup_iff _ _ ha hb⟩

/-- C2 witness: the amended characterization applied at concrete duplicate-free
inputs that agree as sets but not as sequences. -/
theorem C2_tag_comparison_characterization_witness :
    compareTagArrays [⟨['x']⟩, ⟨['y']⟩] [⟨['y']⟩, ⟨['x']⟩] = true ∧
      ∀ t, t ∈ extractTags [⟨['x']⟩, ⟨['y']⟩] ↔ t ∈ extractTags [⟨['y']⟩, ⟨['x']⟩] := by
  have h := (C2_tag_comparison_characterization.1 [⟨['x']⟩, ⟨['y']⟩] [⟨['y']⟩, ⟨['x']⟩]).2
    (by decide) (by decide)
  exact ⟨by decide, h.mp (by decide)⟩

/-! ## Metadata differ: user-rating tolerance
Source: internal/discovery/content_matcher.go, orchestrator section,
`compareMovieMetadata` / `compareTVShowMetadata` (the rating clause
`abs(int64(source.UserRating.Value*10-dest.UserRating.Value*10)) > 1`) and
the helper `abs`. -/

/-- `abs`: absolute value of an int64 as written in the Go source. -/
def goAbs (x : ℤ) : ℤ :=
  if x < 0 then -x else x

/-- Go's `int64(x)` conversion applied to an exact rational value: truncation
toward zero. -/
def goInt64OfRat (q : ℚ) : ℤ :=
  Int.tdiv q.num (q.den : ℤ)

/-- The rating clause of `compareMovieMetadata` and `compareTVShowMetadata`:
the pair of user ratings is recorded as a difference exactly when
`abs(int64(source*10 - dest*10)) > 1`.  Rating values are modelled as exact
rationals; at every concrete input appearing in the claim the binary64
computation of the Go program produces the same integer (7.2*10, 7.4*10 and
7.5*10 all round to exact integers in binary64). -/
def userRatingDiffers (source dest : ℚ) : Bool :=
  decide (goAbs (goInt64OfRat (source * 10 - dest * 10)) > 1)

theorem goAbs_eq_abs (x : ℤ) : goAbs x = |x| := by
  unfold goAbs
  rcases lt_or_le x 0 with h | h
  · rw [if_pos h, abs_of_neg h]
  · rw [if_neg (not_lt.mpr h), abs_of_nonneg h]

theorem rat_lt_cast (q : ℚ) (n : ℤ) : q < (n : ℚ) ↔ q.num < n * (q.den : ℤ) := by
  constructor
  · intro h
    have h2 : (q.num : ℚ) / (q.den : ℚ) < (n : ℚ) := by rwa [Rat.num_div_den]
    have hden : (0 : ℚ) < (q.den : ℚ) := by exact_mod_cast q.den_pos
    rw [div_lt_iff₀ hden] at h2
    exact_mod_cast h2
  · intro h
    have hden : (0 : ℚ) < (q.den : ℚ) := by exact_mod_cast q.den_pos
    have h2 : (q.num : ℚ) < (n : ℚ) * (q.den : ℚ) := by exact_mod_cast h
    rw [← div_lt_iff₀ hden] at h2
    rwa [Rat.num_div_den] at h2

theorem cast_lt_rat (q : ℚ) (n : ℤ) : (n : ℚ) < q ↔ n * (q.den : ℤ) < q.num := by
  constructor
  · intro h
    have h2 : (n : ℚ) < (q.num : ℚ) / (q.den : ℚ) := by rwa [Rat.num_div_den]
    have hden : (0 : ℚ) < (q.den : ℚ) := by exact_mod_cast q.den_pos
    rw [lt_div_iff₀ hden] at h2
    exact_mod_cast h2
  · intro h
    have hden : (0 : ℚ) < (q.den : ℚ) := by exact_mod_cast q.den_pos
    have h2 : (n : ℚ) * (q.den : ℚ) < (q.num : ℚ) := by exact_mod_cast h
    rw [← lt_div_iff₀ hden] at h2
    rwa [Rat.num_div_den] at h2

theorem rat_abs_lt_two_iff (q : ℚ) : |q| < 2 ↔ q.num.natAbs < 2 * q.den := by
  rw [abs_lt]
  have h1 := rat_lt_cast q 2
  have h2 := cast_lt_rat q (-2)
  push_cast at h1 h2
  rw [h1, h2]
  omega

theorem rating_72_74_differs : userRatingDiffers (72 / 10) (74 / 10) = true := by
  have hval : (72 / 10 : ℚ) * 10 - (74 / 10 : ℚ) * 10 = ((-2 : ℤ) : ℚ) := by norm_num
  unfold userRatingDiffers
  rw [hval, goInt64OfRat, Rat.num_intCast, Rat.den_intCast]
  decide

theorem rating_72_75_differs : userRatingDiffers (72 / 10) (75 / 10) = true := by
  have hval : (72 / 10 : ℚ) * 10 - (75 / 10 : ℚ) * 10 = ((-3 : ℤ) : ℚ) := by norm_num
  unfold userRatingDiffers
  rw [hval, goInt64OfRat, Rat.num_intCast, Rat.den_intCast]
  decide

/-- C3: REFUTED as stated.  The claim asserts that rating values 7.2 and 7.4
are treated as equal; the code computes `abs(int64(7.2*10 - 7.4*10)) = 2 > 1`
(exactly, both in binary64 and in exact arithmetic) and records a difference. -/
theorem C3_counterexample :
    userRatingDiffers (72 / 10) (74 / 10) = true :=
  rating_72_74_differs

/-- C3 (amended): a pair of user ratings is treated as equal exactly when the
truncation toward zero of `source*10 - dest*10` has absolute value at most 1 —
equivalently, in exact arithmetic, when `|source*10 - dest*10| < 2`; the pairs
(7.2, 7.4) and (7.2, 7.5) are both treated as differing. -/
theorem C3_rating_tolerance :
    (∀ source dest : ℚ,
      userRatingDiffers source dest = false ↔ |source * 10 - dest * 10| < 2) ∧
    userRatingDiffers (72 / 10) (74 / 10) = true ∧
    userRatingDiffers (72 / 10) (75 / 10) = true := by
  refine ⟨?_, rating_72_74_differs, rating_72_75_differs⟩
  intro source dest
  unfold userRatingDiffers
  rw [rat_abs_lt_two_iff]
  simp only [decide_eq_false_iff_not, not_lt]
  generalize (source * 10 - dest * 10 : ℚ) = q
  have hpos : 0 < q.den := q.pos
  have habs : goAbs (goInt64OfRat q) = ((q.num.natAbs / q.den : ℕ) : ℤ) := by
    rw [goAbs_eq_abs, Int.abs_eq_natAbs, goInt64OfRat, Int.natAbs_tdiv, Int.natAbs_ofNat]
    rfl
  rw [habs]
  constructor
  · intro hle
    exact (Nat.div_lt_iff_lt_mul hpos).mp (by omega : q.num.natAbs / q.den < 2)
  · intro hlt
    have h1 : q.num.natAbs / q.den < 2 := (Nat.div_lt_iff_lt_mul hpos).mpr (by omega)
    omega

/-! ## Unified transfer wrapper
Source: internal/transfer/transfer.go, `transferClient.TransferFile` and
`transferClient.ensureDestinationDir`. -/

/-- Result of the backend's raw transfer (`doTransferFile`): success, an error
whose message contains `file_skipped` (rsync reported the file already up to
date), or any other error. -/
inductive BackendResult
  | ok
  | errSkipped
  | errOther
deriving DecidableEq

/-- The environment a single `TransferFile` call runs against: the local stat
result for the source path, the destination size query result, whether the
destination directory creation succeeds, and the backend transfer result. -/
structure TransferEnv where
  statSize : Option ℤ
  destSize : Option ℤ
  mkdirOk : Bool
  backendResult : BackendResult
deriving DecidableEq

/-- Outcome recorded by `TransferFile` (which log record is emitted / which
error is returned). -/
inductive TransferOutcome
  | errStat
  | skippedIdenticalSize
  | errMkdir
  | skippedBackend
  | completed
  | errTransfer
deriving DecidableEq

/-- Observable trace of one `TransferFile` call: the recorded outcome, whether
the destination-directory creation was attempted, whether the backend's raw
transfer was invoked, and whether the call returned nil. -/
structure TransferTrace where
  outcome : TransferOutcome
  dirEnsureAttempted : Bool
  backendInvoked : Bool
  retOk : Bool
deriving DecidableEq

/-- `transferClient.TransferFile`: stat the source; query the destination size
(an error means the file is missing or inaccessible and the transfer
proceeds); if the destination size equals the source size, log a skip and
return nil; otherwise ensure the destination directory, invoke the backend,
folding a `file_skipped` backend error into a skip. -/
def TransferFile (env : TransferEnv) : TransferTrace :=
  match env.statSize with
  | none => ⟨.errStat, false, false, false⟩
  | some srcSize =>
    if env.destSize = some srcSize then
      ⟨.skippedIdenticalSize, false, false, true⟩
    else if env.mkdirOk = false then
      ⟨.errMkdir, true, false, false⟩
    else
      match env.backendResult with
      | .errSkipped => ⟨.skippedBackend, true, true, true⟩
      | .errOther => ⟨.errTransfer, true, true, false⟩
      | .ok => ⟨.completed, true, true, true⟩

/-- C1: when the local stat succeeds and the destination size query returns
exactly the source size, the backend transfer is never invoked, a skipped
outcome is recorded and the call returns success; in every other case
(destination missing / size query failing / sizes differing) the destination
directory is ensured and, provided the directory creation succeeds, the
backend transfer is invoked. -/
theorem C1_transfer_skip_on_identical_size (env : TransferEnv) (n : ℤ)
    (hstat : env.statSize = some n) :
    (env.destSize = some n →
      (TransferFile env).backendInvoked = false ∧
      (TransferFile env).outcome = .skippedIdenticalSize ∧
      (TransferFile env).retOk = true) ∧
    (env.destSize ≠ some n →
      (TransferFile env).dirEnsureAttempted = true ∧
      (env.mkdirOk = true → (TransferFile env).backendInvoked = true)) := by
  obtain ⟨stat, dest, mk, backend⟩ := env
  simp only at hstat
  subst hstat
  constructor
  · intro heq
    simp only at heq
    simp [TransferFile, heq]
  · intro hne
    simp only at hne
    constructor
    · simp only [TransferFile]
      rw [if_neg hne]
      cases mk
      · simp
      · cases backend <;> simp
    · intro hmk
      simp only at hmk
      subst hmk
      simp only [TransferFile]
      rw [if_neg hne]
      cases backend <;> simp

/-- C1 witness: a concrete environment in which source and destination report
size 5, and one in which the destination is missing. -/
theorem C1_transfer_skip_on_identical_size_witness :
    ((TransferFile ⟨some 5, some 5, true, .ok⟩).backendInvoked = false ∧
      (TransferFile ⟨some 5, some 5, true, .ok⟩).outcome = .skippedIdenticalSize ∧
      (TransferFile ⟨some 5, some 5, true, .ok⟩).retOk = true) ∧
    ((TransferFile ⟨some 5, none, true, .ok⟩).dirEnsureAttempted = true ∧
      (TransferFile ⟨some 5, none, true, .ok⟩).backendInvoked = true) := by
  have h1 := C1_transfer_skip_on_identical_size ⟨some 5, some 5, true, .ok⟩ 5 rfl
  have h2 := C1_transfer_skip_on_identical_size ⟨some 5, none, true, .ok⟩ 5 rfl
  exact ⟨h1.1 rfl, (h2.2 (by decide)).1, (h2.2 (by decide)).2 rfl⟩

/-! ## Orphan cleanup
Source: internal/discovery/content_matcher.go, orchestrator section,
`SyncOrchestrator.cleanupOrphanedFiles`. -/

/-- Observable trace of one `cleanupOrphanedFiles` call: the destination files
whose deletion was attempted (in listing order), the count of successful
deletions (`orphanedCount`), and whether the call returned nil. -/
structure CleanupTrace where
  attemptedDeletes : List GoStr
  orphanedCount : Nat
  retOk : Bool
deriving DecidableEq

/-- `SyncOrchestrator.cleanupOrphanedFiles`: if no destination root is
configured, do nothing; if listing the destination tree fails, return the
error; otherwise, for every listed file not marked in `syncedFiles`, attempt
deletion — a failed deletion is logged and the loop continues with the next
file. -/
def cleanupOrphanedFiles (destRootDir : GoStr) (syncedFiles : GoStr → Bool)
    (listResult : Option (List GoStr)) (deleteOk : GoStr → Bool) : CleanupTrace :=
  if destRootDir = [] then
    ⟨[], 0, true⟩
  else
    match listResult with
    | none => ⟨[], 0, false⟩
    | some destFiles =>
      let final := destFiles.foldl
        (fun acc f =>
          if syncedFiles f then acc
          else (acc.1 ++ [f], acc.2 + (if deleteOk f then 1 else 0)))
        (([], 0) : List GoStr × Nat)
      ⟨final.1, final.2, true⟩

theorem cleanup_foldl_attempts (destFiles : List GoStr) (syncedFiles : GoStr → Bool)
    (deleteOk : GoStr → Bool) (acc : List GoStr × Nat) :
    (destFiles.foldl
      (fun acc f =>
        if syncedFiles f then acc
        else (acc.1 ++ [f], acc.2 + (if deleteOk f then 1 else 0)))
      acc).1 = acc.1 ++ destFiles.filter (fun f => !syncedFiles f) := by
  induction destFiles generalizing acc with
  | nil => simp
  | cons f rest ih =>
    by_cases h : syncedFiles f
    · simp [List.foldl_cons, h, ih]
    · simp only [List.foldl_cons, if_neg h, ih, List.filter_cons]
      simp [h]

/-- C6: with a configured destination root and a successful tree listing,
cleanup attempts deletion of exactly the listed files not in the synced set —
every non-member is attempted, no member is attempted — and the set of
attempted deletions does not depend on which deletions succeed (a failed
deletion does not abort cleanup of the rest). -/
theorem C6_orphan_cleanup (destRootDir : GoStr) (syncedFiles : GoStr → Bool)
    (destFiles : List GoStr) (deleteOk : GoStr → Bool)
    (hroot : destRootDir ≠ []) :
    (cleanupOrphanedFiles destRootDir syncedFiles (some destFiles) deleteOk).attemptedDeletes
        = destFiles.filter (fun f => !syncedFiles f) ∧
    (∀ f, f ∈ (cleanupOrphanedFiles destRootDir syncedFiles (some destFiles) deleteOk).attemptedDeletes
        ↔ (f ∈ destFiles ∧ syncedFiles f = false)) := by
  have heq : (cleanupOrphanedFiles destRootDir syncedFiles (some destFiles) deleteOk).attemptedDeletes
      = destFiles.filter (fun f => !syncedFiles f) := by
    unfold cleanupOrphanedFiles
    rw [if_neg hroot]
    simpa using cleanup_foldl_attempts destFiles syncedFiles deleteOk ([], 0)
  refine ⟨heq, fun f => ?_⟩
  rw [heq, List.mem_filter]
  simp

/-- C6 witness: the spec's example — SyncedFileSet contains `/dest/a.mkv`,
the listing contains `/dest/a.mkv` and `/dest/b.mkv`, and exactly
`/dest/b.mkv` is attempted (even though its deletion fails). -/
theorem C6_orphan_cleanup_witness :
    (cleanupOrphanedFiles "/dest".toList (fun f => f == "/dest/a.mkv".toList)
        (some ["/dest/a.mkv".toList, "/dest/b.mkv".toList]) (fun _ => false)).attemptedDeletes
      = ["/dest/b.mkv".toList] := by
  have h := C6_orphan_cleanup "/dest".toList (fun f => f == "/dest/a.mkv".toList)
    ["/dest/a.mkv".toList, "/dest/b.mkv".toList] (fun _ => false) (by decide)
  rw [h.1]
  decide

/-! ## Metadata phase counting
Source: internal/discovery/content_matcher.go, orchestrator section,
`SyncOrchestrator.syncAllMetadata`.  The call that would apply the metadata
differences (`s.syncEnhancedItemMetadata(match.SourceItem, match.DestItem)`)
is commented out in the source; the `metadata.Synchronizer` held by the
orchestrator (whose `SyncEnhancedMetadata` pushes ratings, labels and genres
to the destination) is initialized but never invoked anywhere. -/

/-- One match as seen by `syncAllMetadata`: the destination rating key
extracted from the destination item, and the result of
`compareEnhancedMetadata` (`error` when the comparison fails, otherwise
whether the pair needs a sync). -/
structure ModelMatch where
  destRatingKey : GoStr
  compareOutcome : Except Unit Bool

/-- Counters produced by `syncAllMetadata`, plus the number of times the
apply step (the synchronizer pushing ratings/labels/genres) is invoked. -/
structure SyncCounts where
  success : Nat
  errors : Nat
  skipped : Nat
  appliesInvoked : Nat
deriving DecidableEq

/-- `SyncOrchestrator.syncAllMetadata`: for every match, an empty destination
rating key counts an error; a comparison failure defaults to needing sync;
a pair not needing sync counts a skip; a pair needing sync is counted as a
success directly — the apply call in the loop body is commented out, so no
apply step runs. -/
def syncAllMetadata (ms : List ModelMatch) : SyncCounts :=
  ms.foldl
    (fun acc m =>
      if m.destRatingKey = [] then
        { acc with errors := acc.errors + 1 }
      else
        let needsSync :=
          match m.compareOutcome with
          | .error () => true
          | .ok b => b
        if needsSync = false then
          { acc with skipped := acc.skipped + 1 }
        else
          { acc with success := acc.success + 1 })
    ⟨0, 0, 0, 0⟩

theorem syncAllMetadata_foldl_applies (ms : List ModelMatch) (acc : SyncCounts) :
    (ms.foldl
      (fun acc m =>
        if m.destRatingKey = [] then
          { acc with errors := acc.errors + 1 }
        else
          let needsSync :=
            match m.compareOutcome with
            | .error () => true
            | .ok b => b
          if needsSync = false then
            { acc with skipped := acc.skipped + 1 }
          else
            { acc with success := acc.success + 1 })
      acc).appliesInvoked = acc.appliesInvoked := by
  induction ms generalizing acc with
  | nil => rfl
  | cons m rest ih =>
    simp only [List.foldl_cons]
    rw [ih]
    split
    · rfl
    · split <;> rfl

/-- C4: REFUTED by the code as written (code bug).  For every list of matches
the metadata phase invokes the apply step zero times, and a match whose
comparison reports a difference (here: destination key "1", comparison
reporting a difference) is counted as a success anyway: the apply call is
commented out in `syncAllMetadata`, contradicting both the spec and the
code's own "Syncing enhanced metadata differences" log line. -/
theorem C4_success_counted_without_apply :
    (∀ ms : List ModelMatch, (syncAllMetadata ms).appliesInvoked = 0) ∧
    syncAllMetadata [⟨['1'], .ok true⟩] = ⟨1, 0, 0, 0⟩ := by
  constructor
  · intro ms
    exact syncAllMetadata_foldl_applies ms ⟨0, 0, 0, 0⟩
  · decide

/-! ## Watch-state reconciliation
Source: internal/metadata (part of the repository shipped unnamed),
`Synchronizer.syncWatchedState`, and the Plex client's `Client.GetWatchedState`
/ `Client.SetWatchedState`. -/

/-- `plex.WatchedState`: watched flag, view count, resume offset, last-viewed
timestamp. -/
structure WatchedState where
  watched : Bool
  viewCount : ℤ
  viewOffset : ℤ
  lastViewedAt : ℤ
deriving DecidableEq

/-- The decision core of `Synchronizer.syncWatchedState`: from the two fetched
states, compute the `syncToDest` / `syncToSource` flags exactly as the three
sequential `if` blocks of the Go source do. -/
def syncWatchedStateDecision (sourceWatchedState destWatchedState : WatchedState) :
    Bool × Bool :=
  let syncToDest := false
  let syncToSource := false
  -- if source is watched but destination is not, sync to destination
  let syncToDest :=
    if sourceWatchedState.watched ∧ ¬destWatchedState.watched then
      if destWatchedState.lastViewedAt = 0 ∨
          sourceWatchedState.lastViewedAt > destWatchedState.lastViewedAt then
        true
      else syncToDest
    else syncToDest
  -- if destination is watched but source is not, sync to source
  let syncToSource :=
    if ¬sourceWatchedState.watched ∧ destWatchedState.watched then
      if sourceWatchedState.lastViewedAt = 0 ∨
          destWatchedState.lastViewedAt > sourceWatchedState.lastViewedAt then
        true
      else syncToSource
    else syncToSource
  -- if both are watched, sync the one with the higher view count or more recent date
  let p :=
    if sourceWatchedState.watched ∧ destWatchedState.watched then
      if sourceWatchedState.viewCount > destWatchedState.viewCount then
        (true, syncToSource)
      else if destWatchedState.viewCount > sourceWatchedState.viewCount then
        (syncToDest, true)
      else if sourceWatchedState.lastViewedAt > destWatchedState.lastViewedAt then
        (true, syncToSource)
      else if destWatchedState.lastViewedAt > sourceWatchedState.lastViewedAt then
        (syncToDest, true)
      else
        (syncToDest, syncToSource)
    else (syncToDest, syncToSource)
  p

/-- Target of a `SetWatchedState` call issued by `syncWatchedState`. -/
inductive WriteTarget
  | toDest
  | toSource
deriving DecidableEq

/-- The writes `syncWatchedState` issues after deciding: when `syncToDest`,
`destClient.SetWatchedState(destRatingKey, source.Watched)`; when
`syncToSource`, `sourceClient.SetWatchedState(sourceRatingKey, dest.Watched)`. -/
def syncWatchedStateWrites (sourceWatchedState destWatchedState : WatchedState) :
    List (WriteTarget × Bool) :=
  let d := syncWatchedStateDecision sourceWatchedState destWatchedState
  (if d.1 then [(WriteTarget.toDest, sourceWatchedState.watched)] else []) ++
    (if d.2 then [(WriteTarget.toSource, destWatchedState.watched)] else [])

/-- C7: the reconciliation rule.  If exactly one side is watched, that side's
state is synced to the unwatched side exactly when the unwatched side has no
timestamp or the watched side's last-viewed time is newer; if both sides are
watched, the higher view count wins, ties broken by the newer last-viewed
time; full ties issue no write to either side; and the spec's example — source
watched with view count 3 at time t₂, destination watched with view count 1 at
an earlier time t₁ — updates the destination to the source's state. -/
theorem C7_watch_state_reconciliation (s d : WatchedState) :
    (s.watched = true → d.watched = false →
      syncWatchedStateDecision s d =
        (decide (d.lastViewedAt = 0 ∨ s.lastViewedAt > d.lastViewedAt), false)) ∧
    (s.watched = false → d.watched = true →
      syncWatchedStateDecision s d =
        (false, decide (s.lastViewedAt = 0 ∨ d.lastViewedAt > s.lastViewedAt))) ∧
    (s.watched = true → d.watched = true →
      (s.viewCount > d.viewCount → syncWatchedStateDecision s d = (true, false)) ∧
      (d.viewCount > s.viewCount → syncWatchedStateDecision s d = (false, true)) ∧
      (s.viewCount = d.viewCount → s.lastViewedAt > d.lastViewedAt →
        syncWatchedStateDecision s d = (true, false)) ∧
      (s.viewCount = d.viewCount → d.lastViewedAt > s.lastViewedAt →
        syncWatchedStateDecision s d = (false, true)) ∧
      (s.viewCount = d.viewCount → s.lastViewedAt = d.lastViewedAt →
        syncWatchedStateDecision s d = (false, false) ∧
          syncWatchedStateWrites s d = [])) ∧
    (∀ t₁ t₂ o₁ o₂ : ℤ, t₁ < t₂ →
      s = ⟨true, 3, o₁, t₂⟩ → d = ⟨true, 1, o₂, t₁⟩ →
      syncWatchedStateDecision s d = (true, false) ∧
        syncWatchedStateWrites s d = [(WriteTarget.toDest, true)]) := by
  refine ⟨?_, ?_, ?_, ?_⟩
  · intro hs hd
    by_cases hlv : d.lastViewedAt = 0 ∨ s.lastViewedAt > d.lastViewedAt <;>
      simp [syncWatchedStateDecision, hs, hd, hlv]
  · intro hs hd
    by_cases hlv : s.lastViewedAt = 0 ∨ d.lastViewedAt > s.lastViewedAt <;>
      simp [syncWatchedStateDecision, hs, hd, hlv]
  · intro hs hd
    refine ⟨?_, ?_, ?_, ?_, ?_⟩
    · intro hvc
      simp [syncWatchedStateDecision, hs, hd, hvc]
    · intro hvc
      have h1 : ¬ s.viewCount > d.viewCount := by omega
      simp [syncWatchedStateDecision, hs, hd, hvc, h1]
    · intro hvc hlv
      have h1 : ¬ s.viewCount > d.viewCount := by omega
      have h2 : ¬ d.viewCount > s.viewCount := by omega
      simp [syncWatchedStateDecision, hs, hd, h1, h2, hlv]
    · intro hvc hlv
      have h1 : ¬ s.viewCount > d.viewCount := by omega
      have h2 : ¬ d.viewCount > s.viewCount := by omega
      have h3 : ¬ s.lastViewedAt > d.lastViewedAt := by omega
      simp [syncWatchedStateDecision, hs, hd, h1, h2, h3, hlv]
    · intro hvc hlv
      have h1 : ¬ s.viewCount > d.viewCount := by omega
      have h2 : ¬ d.viewCount > s.viewCount := by omega
      have h3 : ¬ s.lastViewedAt > d.lastViewedAt := by omega
      have h4 : ¬ d.lastViewedAt > s.lastViewedAt := by omega
      constructor
      · simp [syncWatchedStateDecision, hs, hd, h1, h2, h3, h4]
      · simp [syncWatchedStateWrites, syncWatchedStateDecision, hs, hd, h1, h2, h3, h4]
  · intro t₁ t₂ o₁ o₂ ht hs hd
    subst hs; subst hd
    have h31 : (3 : ℤ) > 1 := by omega
    constructor
    · simp [syncWatchedStateDecision, h31]
    · simp [syncWatchedStateWrites, syncWatchedStateDecision, h31]

/-- C7 witness: the reconciliation theorem applied at the spec's example with
concrete timestamps 100 < 200. -/
theorem C7_watch_state_reconciliation_witness :
    syncWatchedStateDecision ⟨true, 3, 0, 200⟩ ⟨true, 1, 0, 100⟩ = (true, false) ∧
      syncWatchedStateWrites ⟨true, 3, 0, 200⟩ ⟨true, 1, 0, 100⟩ =
        [(WriteTarget.toDest, true)] := by
  have h := (C7_watch_state_reconciliation ⟨true, 3, 0, 200⟩ ⟨true, 1, 0, 100⟩).2.2.2
    100 200 0 0 (by decide) rfl rfl
  exact h

/-- `Client.GetWatchedState`: builds the metadata request; any request
construction, transport, or non-200 failure is an error; on success it returns
the constant default state — parsing of the actual response is not
implemented (`TODO` in the source). -/
def GetWatchedState (httpOk : Bool) : Option WatchedState :=
  if httpOk then some ⟨false, 0, 0, 0⟩ else none

/-- `Synchronizer.syncWatchedState` end to end: fetch both states (an error in
either fetch aborts with an error), then decide and issue the writes. -/
def syncWatchedState (sourceFetch destFetch : Option WatchedState) :
    Except Unit (List (WriteTarget × Bool)) :=
  match sourceFetch with
  | none => .error ()
  | some sourceWatchedState =>
    match destFetch with
    | none => .error ()
    | some destWatchedState =>
      .ok (syncWatchedStateWrites sourceWatchedState destWatchedState)

/-- C10: `GetWatchedState` never parses the response — any successful fetch
returns the constant default (unwatched) state — and therefore the pipeline's
watch-state phase, wired through `GetWatchedState` on both sides, never issues
a `SetWatchedState` write to either server. -/
theorem C10_watch_state_never_written :
    (∀ (b : Bool) (st : WatchedState),
      GetWatchedState b = some st → st = ⟨false, 0, 0, 0⟩) ∧
    (∀ b₁ b₂ : Bool,
      syncWatchedState (GetWatchedState b₁) (GetWatchedState b₂) =
        if b₁ ∧ b₂ then .ok [] else .error ()) := by
  constructor
  · intro b st h
    cases b
    · simp [GetWatchedState] at h
    · simp [GetWatchedState] at h
      exact h.symm
  · intro b₁ b₂
    cases b₁ <;> cases b₂ <;> rfl

/-- C10 witness: both fetches succeed and the phase issues no write. -/
theorem C10_watch_state_never_written_witness :
    GetWatchedState true = some ⟨false, 0, 0, 0⟩ ∧
      syncWatchedState (GetWatchedState true) (GetWatchedState true) = .ok [] := by
  have h1 := C10_watch_state_never_written.1 true ⟨false, 0, 0, 0⟩ rfl
  have h2 := C10_watch_state_never_written.2 true true
  exact ⟨by decide, by simpa using h2⟩

/-! ## Library refresh coordinator
Source: internal/discovery (part of the repository shipped unnamed),
`LibraryManager.TriggerRefreshAndWait`, `waitForExistingScansComplete`,
`waitForAllScansComplete`, `waitForAllMetadataRefreshComplete`.  The polling
loops are driven by `IsLibraryScanInProgress`, whose outcomes we model as a
trace of poll results indexed by poll number; real elapsed time advances by
one fixed interval per iteration, so each bounded wait is modelled by the
number of polls its ceiling admits. -/

/-- One outcome of `IsLibraryScanInProgress`: the query errored, scans are
still in progress, or no scan activity remains. -/
inductive Poll
  | perr
  | busy
  | clear
deriving DecidableEq

/-- The loop of `waitForAllScansComplete`: the timeout check precedes each
poll; a poll error logs a warning and keeps waiting; a clear response returns
nil; otherwise sleep one interval and poll again. -/
def scanWaitLoop (trace : ℕ → Poll) (i : ℕ) : ℕ → Bool
  | 0 => false
  | fuel + 1 =>
    match trace i with
    | .clear => true
    | _ => scanWaitLoop trace (i + 1) fuel

/-- Polls admitted by the scan wait: 10-minute ceiling at a 5-second interval,
with the elapsed-time check before each poll, admits polls at elapsed
0, 5, ..., 600 seconds. -/
def scanMaxPolls : ℕ := 121

/-- `waitForAllScansComplete`: returns nil when some admitted poll reports no
scans in progress, and the timeout error otherwise. -/
def waitForAllScansComplete (trace : ℕ → Poll) : Bool :=
  scanWaitLoop trace 0 scanMaxPolls

/-- The loop of `waitForAllMetadataRefreshComplete`: a timeout returns nil
("proceeding anyway"), an error checking status returns nil, completion
returns nil. -/
def metaWaitLoop (trace : ℕ → Poll) (i : ℕ) : ℕ → Bool
  | 0 => true
  | fuel + 1 =>
    match trace i with
    | .perr => true
    | .clear => true
    | .busy => metaWaitLoop trace (i + 1) fuel

/-- Polls admitted by the metadata-refresh wait: 30-minute ceiling at a
15-second interval. -/
def metaMaxPolls : ℕ := 121

/-- `waitForAllMetadataRefreshComplete`. -/
def waitForAllMetadataRefreshComplete (trace : ℕ → Poll) : Bool :=
  metaWaitLoop trace 0 metaMaxPolls

/-- The loop of `waitForExistingScansComplete` after its initial check: a
timeout returns nil ("proceeding anyway"), an error checking status returns
nil, completion returns nil. -/
def existingWaitLoop (trace : ℕ → Poll) (i : ℕ) : ℕ → Bool
  | 0 => true
  | fuel + 1 =>
    match trace i with
    | .perr => true
    | .clear => true
    | .busy => existingWaitLoop trace (i + 1) fuel

/-- Polls admitted by the existing-scan wait loop: 5-minute ceiling at a
10-second interval. -/
def existingMaxPolls : ℕ := 31

/-- `waitForExistingScansComplete`: an error on the initial check is this
function's only error return (its caller merely logs it); no scans in
progress returns nil; otherwise enter the bounded loop. -/
def waitForExistingScansComplete (trace : ℕ → Poll) : Bool :=
  match trace 0 with
  | .perr => false
  | .clear => true
  | .busy => existingWaitLoop trace 1 existingMaxPolls

/-- Environment of one `TriggerRefreshAndWait` run: trace of the existing-scan
check, the destination library listing (`none` = `GetLibraries` failed),
per-library scan trigger success, the scan-completion poll trace, per-library
metadata-refresh trigger success, and the refresh-completion poll trace.
Libraries are identified by their numeric key. -/
structure RefreshEnv where
  existingTrace : ℕ → Poll
  libraries : Option (List ℕ)
  scanTriggerOk : ℕ → Bool
  scanTrace : ℕ → Poll
  refreshTriggerOk : ℕ → Bool
  refreshTrace : ℕ → Poll

/-- The run-fatal errors `TriggerRefreshAndWait` can return. -/
inductive RefreshErr
  | getLibrariesFailed
  | noScanTriggered
  | scanTimeout
  | metaWaitFailed
deriving DecidableEq

/-- The `noRefreshTriggered` case uses the same constructor set. -/
inductive RefreshErr2
  | noRefreshTriggered
deriving DecidableEq

/-- Observable result of `TriggerRefreshAndWait`: the returned error, if any,
and the list of libraries passed to `waitForAllScansComplete` (empty when the
wait is never entered). -/
structure RefreshResult where
  err : Option (RefreshErr ⊕ RefreshErr2)
  scanWaitedOn : List ℕ
deriving DecidableEq

/-- `LibraryManager.TriggerRefreshAndWait`: wait for existing scans (failures
only logged); list destination libraries (failure is fatal); trigger a scan
per library, collecting `successfulScans`; zero successes is fatal; wait for
scan completion (timeout fatal) passing only the successfully triggered
libraries; trigger a metadata refresh for every library; zero successes is
fatal; finally return the metadata-refresh wait's result. -/
def TriggerRefreshAndWait (env : RefreshEnv) : RefreshResult :=
  let _existing := waitForExistingScansComplete env.existingTrace
  match env.libraries with
  | none => ⟨some (.inl .getLibrariesFailed), []⟩
  | some libraries =>
    let successfulScans := libraries.filter (fun l => env.scanTriggerOk l)
    if successfulScans = [] then
      ⟨some (.inl .noScanTriggered), []⟩
    else if waitForAllScansComplete env.scanTrace = false then
      ⟨some (.inl .scanTimeout), successfulScans⟩
    else
      let successfulMetadataRefresh := libraries.filter (fun l => env.refreshTriggerOk l)
      if successfulMetadataRefresh = [] then
        ⟨some (.inr .noRefreshTriggered), successfulScans⟩
      else if waitForAllMetadataRefreshComplete env.refreshTrace = false then
        ⟨some (.inl .metaWaitFailed), successfulScans⟩
      else
        ⟨none, successfulScans⟩

theorem metaWaitLoop_always_ok (trace : ℕ → Poll) (i fuel : ℕ) :
    metaWaitLoop trace i fuel = true := by
  induction fuel generalizing i with
  | zero => rfl
  | succ n ih =>
    unfold metaWaitLoop
    cases trace i
    · rfl
    · exact ih (i + 1)
    · rfl

/-- C8: `TriggerRefreshAndWait` errors exactly when the library listing fails,
no scan trigger succeeds, the scan-completion wait hits its 10-minute ceiling,
or no metadata-refresh trigger succeeds; the metadata-refresh wait never
produces an error (its ceiling and poll errors both return nil), the
existing-scan wait's loop ceiling returns nil and its outcome never affects
the result, and the scan wait is entered with exactly the libraries whose
scan trigger succeeded. -/
theorem C8_refresh_error_characterization :
    (∀ env : RefreshEnv,
      ((TriggerRefreshAndWait env).err ≠ none ↔
        (env.libraries = none ∨
          ∃ libs, env.libraries = some libs ∧
            (libs.filter (fun l => env.scanTriggerOk l) = [] ∨
              (libs.filter (fun l => env.scanTriggerOk l) ≠ [] ∧
                waitForAllScansComplete env.scanTrace = false) ∨
              (libs.filter (fun l => env.scanTriggerOk l) ≠ [] ∧
                waitForAllScansComplete env.scanTrace = true ∧
                libs.filter (fun l => env.refreshTriggerOk l) = []))))) ∧
    (∀ (env : RefreshEnv) (libs : List ℕ),
      env.libraries = some libs →
      libs.filter (fun l => env.scanTriggerOk l) ≠ [] →
      (TriggerRefreshAndWait env).scanWaitedOn = libs.filter (fun l => env.scanTriggerOk l)) ∧
    (∀ trace : ℕ → Poll, waitForAllMetadataRefreshComplete trace = true) ∧
    (∀ (trace : ℕ → Poll) (i : ℕ), existingWaitLoop trace i 0 = true) ∧
    (∀ e₁ e₂ : RefreshEnv,
      e₁.libraries = e₂.libraries → e₁.scanTriggerOk = e₂.scanTriggerOk →
      e₁.scanTrace = e₂.scanTrace → e₁.refreshTriggerOk = e₂.refreshTriggerOk →
      e₁.refreshTrace = e₂.refreshTrace →
      TriggerRefreshAndWait e₁ = TriggerRefreshAndWait e₂) := by
  refine ⟨?_, ?_, ?_, ?_, ?_⟩
  · intro env
    obtain ⟨et, libsOpt, sok, st, rok, rt⟩ := env
    have hmeta : waitForAllMetadataRefreshComplete rt = true :=
      metaWaitLoop_always_ok rt 0 metaMaxPolls
    cases libsOpt with
    | none =>
      refine iff_of_true ?_ (Or.inl rfl)
      simp [TriggerRefreshAndWait]
    | some libs =>
      by_cases hscan : libs.filter (fun l => sok l) = []
      · refine iff_of_true ?_ (Or.inr ⟨libs, rfl, Or.inl hscan⟩)
        simp only [TriggerRefreshAndWait]
        rw [if_pos hscan]
        simp
      · by_cases hwait : waitForAllScansComplete st = false
        · refine iff_of_true ?_ (Or.inr ⟨libs, rfl, Or.inr (Or.inl ⟨hscan, hwait⟩)⟩)
          simp only [TriggerRefreshAndWait]
          rw [if_neg hscan, if_pos hwait]
          simp
        · have hwait' : waitForAllScansComplete st = true := by
            revert hwait
            cases waitForAllScansComplete st <;> simp
          by_cases hrefresh : libs.filter (fun l => rok l) = []
          · refine iff_of_true ?_
              (Or.inr ⟨libs, rfl, Or.inr (Or.inr ⟨hscan, hwait', hrefresh⟩)⟩)
            simp only [TriggerRefreshAndWait]
            rw [if_neg hscan, if_neg hwait, if_pos hrefresh]
            simp
          · refine iff_of_false ?_ ?_
            · simp only [TriggerRefreshAndWait]
              rw [if_neg hscan, if_neg hwait, if_neg hrefresh, if_neg (by simp [hmeta])]
              simp
            · rintro (h | ⟨libs', hlibs', h⟩)
              · exact Option.noConfusion h
              · cases Option.some.inj hlibs'
                rcases h with h | ⟨-, h⟩ | ⟨-, -, h⟩
                · exact hscan h
                · exact hwait h
                · exact hrefresh h
  · intro env libs hlibs hscan
    obtain ⟨et, libsOpt, sok, st, rok, rt⟩ := env
    simp only at hlibs hscan
    subst hlibs
    have hmeta : waitForAllMetadataRefreshComplete rt = true :=
      metaWaitLoop_always_ok rt 0 metaMaxPolls
    simp only [TriggerRefreshAndWait]
    rw [if_neg hscan]
    by_cases hwait : waitForAllScansComplete st = false
    · rw [if_pos hwait]
    · rw [if_neg hwait]
      by_cases hrefresh : libs.filter (fun l => rok l) = []
      · rw [if_pos hrefresh]
      · rw [if_neg hrefresh, if_neg (by simp [hmeta])]
  · intro trace
    exact metaWaitLoop_always_ok trace 0 metaMaxPolls
  · intro trace i
    rfl
  · intro e₁ e₂ h1 h2 h3 h4 h5
    obtain ⟨et₁, libs₁, sok₁, st₁, rok₁, rt₁⟩ := e₁
    obtain ⟨et₂, libs₂, sok₂, st₂, rok₂, rt₂⟩ := e₂
    simp only at h1 h2 h3 h4 h5
    subst h1; subst h2; subst h3; subst h4; subst h5
    rfl

/-- C8 witness: two libraries, one failing scan trigger; everything else
succeeds and the run returns no error, waiting only on library 1. -/
theorem C8_refresh_error_characterization_witness :
    (TriggerRefreshAndWait
        ⟨fun _ => .clear, some [1, 2], fun l => l == 1, fun _ => .clear,
          fun _ => true, fun _ => .clear⟩).scanWaitedOn = [1] ∧
    ¬ ((TriggerRefreshAndWait
        ⟨fun _ => .clear, some [1, 2], fun l => l == 1, fun _ => .clear,
          fun _ => true, fun _ => .clear⟩).err ≠ none) := by
  constructor
  · have h := C8_refresh_error_characterization.2.1
      ⟨fun _ => .clear, some [1, 2], fun l => l == 1, fun _ => .clear,
        fun _ => true, fun _ => .clear⟩ [1, 2] rfl (by decide)
    rw [h]
    decide
  · rw [(C8_refresh_error_characterization.1
      ⟨fun _ => .clear, some [1, 2], fun l => l == 1, fun _ => .clear,
        fun _ => true, fun _ => .clear⟩)]
    rintro (h | ⟨libs, hlibs, h⟩)
    · exact Option.noConfusion h
    · cases hlibs
      rcases h with h | ⟨-, h⟩ | ⟨-, -, h⟩
      · revert h; decide
      · revert h; decide
      · revert h; decide

/-! ## Content matcher
Source: internal/discovery/content_matcher.go,
`ContentMatcher.MatchItemsByFilename` (index building over destination items'
extracted file paths, then first-filename matching per source item), with
`filepath.Base` as in Go's path/filepath for a Unix separator. -/

/-- An enhanced media item as the matcher sees it: an identity (rating key)
and its extracted backing-file paths in declaration order
(`extractEnhancedFilePaths`). -/
structure MediaItem where
  id : ℕ
  paths : List GoStr
deriving DecidableEq

/-- Go's `filepath.Base` on a Unix path: empty input gives ".", trailing
separators are stripped, everything up to and including the last remaining
separator is dropped, and a path of only separators gives "/".  Working on
the reversed character list, stripping trailing separators is `dropWhile` and
the last element is `takeWhile` up to the next separator. -/
def goBase (p : GoStr) : GoStr :=
  if p = [] then ['.']
  else if ((p.reverse.dropWhile (fun c => c = '/')).takeWhile (fun c => c ≠ '/')).reverse
      = [] then ['/']
  else ((p.reverse.dropWhile (fun c => c = '/')).takeWhile (fun c => c ≠ '/')).reverse

/-- Go map assignment `m[k] = v`: later writes shadow earlier ones. -/
def mapInsert (m : GoStr → Option MediaItem) (k : GoStr) (v : MediaItem) :
    GoStr → Option MediaItem :=
  fun q => if q = k then some v else m q

/-- The destination file index of `MatchItemsByFilename`: for every
destination item in order, for every extracted file path, index the base name
(skipping an empty name) — a Go map, so the last writer wins on collision. -/
def buildDestFileIndex (allDestItems : List MediaItem) : GoStr → Option MediaItem :=
  allDestItems.foldl
    (fun idx enhancedItem =>
      enhancedItem.paths.foldl
        (fun idx filePath =>
          let filename := goBase filePath
          if filename ≠ [] then mapInsert idx filename enhancedItem else idx)
        idx)
    (fun _ => none)

/-- The inner loop of the matching phase: walk the source item's file paths in
declaration order, skip empty base names, and return the first index hit
(the Go loop's `break`), with the matched destination item and filename. -/
def firstIndexMatch (idx : GoStr → Option MediaItem) : List GoStr → Option (MediaItem × GoStr)
  | [] => none
  | filePath :: rest =>
    let sourceFilename := goBase filePath
    if sourceFilename = [] then
      firstIndexMatch idx rest
    else
      match idx sourceFilename with
      | some destItem => some (destItem, sourceFilename)
      | none => firstIndexMatch idx rest

/-- `discovery.ItemMatch`. -/
structure ItemMatch where
  sourceItem : MediaItem
  destItem : MediaItem
  filename : GoStr
deriving DecidableEq

/-- `ContentMatcher.MatchItemsByFilename`: build the destination index, then
emit, per source item in order, at most one match (the first filename hit). -/
def MatchItemsByFilename (destItems sourceItems : List MediaItem) : List ItemMatch :=
  let idx := buildDestFileIndex destItems
  sourceItems.foldl
    (fun ms sourceEnhanced =>
      match firstIndexMatch idx sourceEnhanced.paths with
      | some (destEnhanced, name) => ms ++ [⟨sourceEnhanced, destEnhanced, name⟩]
      | none => ms)
    []

/-- Modelled from the spec (claim C5's declarative reading): the last
destination item, in declaration order, one of whose backing-file base names
is `k`. -/
def lastDestWithBaseName (destItems : List MediaItem) (k : GoStr) : Option MediaItem :=
  (destItems.filter (fun d => (d.paths.map goBase).contains k)).getLast?

/-- Modelled from the spec (claim C5's declarative reading): the match emitted
for one source item — keyed by the first of its backing-file base names
present in the index, paired with that name's last destination writer; `none`
when no base name is present. -/
def specMatchOne (destItems : List MediaItem) (s : MediaItem) : Option ItemMatch :=
  ((s.paths.map goBase).find? (fun n => (lastDestWithBaseName destItems n).isSome)).bind
    (fun n => (lastDestWithBaseName destItems n).map (fun d => ⟨s, d, n⟩))

/-- Modelled from the spec: every source item yields at most one match, in
source order. -/
def specMatch (destItems sourceItems : List MediaItem) : List ItemMatch :=
  sourceItems.filterMap (specMatchOne destItems)

theorem goBase_ne_nil (p : GoStr) : goBase p ≠ [] := by
  unfold goBase
  split_ifs with h1 h2
  · exact List.cons_ne_nil _ _
  · exact List.cons_ne_nil _ _
  · exact h2

theorem buildIndex_inner_lookup (d : MediaItem) (ps : List GoStr)
    (m : GoStr → Option MediaItem) (k : GoStr) :
    (ps.foldl
      (fun idx filePath =>
        let filename := goBase filePath
        if filename ≠ [] then mapInsert idx filename d else idx)
      m) k = if k ∈ ps.map goBase then some d else m k := by
  induction ps generalizing m with
  | nil => simp
  | cons p ps ih =>
    simp only [List.foldl_cons]
    rw [ih]
    rw [if_pos (goBase_ne_nil p), List.map_cons]
    by_cases hmem : k ∈ ps.map goBase
    · rw [if_pos hmem, if_pos (List.mem_cons.mpr (Or.inr hmem))]
    · rw [if_neg hmem]
      unfold mapInsert
      by_cases hk : k = goBase p
      · rw [if_pos hk, if_pos (List.mem_cons.mpr (Or.inl hk))]
      · rw [if_neg hk, if_neg (by rw [List.mem_cons]; tauto)]

theorem buildIndex_lookup (destItems : List MediaItem) (k : GoStr) :
    buildDestFileIndex destItems k = lastDestWithBaseName destItems k := by
  induction destItems using List.reverseRecOn with
  | nil => rfl
  | append_singleton ds d ih =>
    unfold buildDestFileIndex at ih ⊢
    rw [List.foldl_append, List.foldl_cons, List.foldl_nil]
    rw [buildIndex_inner_lookup]
    unfold lastDestWithBaseName at ih ⊢
    rw [List.filter_append, List.getLast?_append]
    by_cases hmem : k ∈ d.paths.map goBase
    · rw [if_pos hmem]
      have h1 : List.filter (fun x => (x.paths.map goBase).contains k) [d] = [d] := by
        rw [List.filter_cons, if_pos (by simpa using hmem)]
        rfl
      rw [h1]
      rfl
    · rw [if_neg hmem]
      have h1 : List.filter (fun x => (x.paths.map goBase).contains k) [d] = [] := by
        rw [List.filter_cons, if_neg (by simpa using hmem)]
        rfl
      rw [h1]
      simpa using ih

theorem firstIndexMatch_eq_find (idx : GoStr → Option MediaItem) (ps : List GoStr) :
    firstIndexMatch idx ps =
      ((ps.map goBase).find? (fun n => (idx n).isSome)).bind
        (fun n => (idx n).map (fun d => (d, n))) := by
  induction ps with
  | nil => rfl
  | cons p ps ih =>
    simp only [firstIndexMatch, List.map_cons, List.find?_cons]
    rw [if_neg (goBase_ne_nil p)]
    cases hidx : idx (goBase p) with
    | some d =>
      simp [hidx]
    | none =>
      simp [hidx, ih]

theorem matcher_foldl_eq_filterMap (idx : GoStr → Option MediaItem)
    (ss : List MediaItem) (acc : List ItemMatch) :
    (ss.foldl
      (fun ms sourceEnhanced =>
        match firstIndexMatch idx sourceEnhanced.paths with
        | some (destEnhanced, name) => ms ++ [⟨sourceEnhanced, destEnhanced, name⟩]
        | none => ms)
      acc) =
      acc ++ ss.filterMap
        (fun s => (firstIndexMatch idx s.paths).map (fun pr => ⟨s, pr.1, pr.2⟩)) := by
  induction ss generalizing acc with
  | nil => simp
  | cons s ss ih =>
    simp only [List.foldl_cons, List.filterMap_cons]
    cases hg : firstIndexMatch idx s.paths with
    | some pr =>
      obtain ⟨d, name⟩ := pr
      rw [ih]
      simp
    | none =>
      rw [ih]
      simp

/-- C5: the matcher is exactly its declarative description — the destination
index maps every base name to the last destination item writing it, and the
emitted matches are, per source item in order, exactly one `ItemMatch` keyed
by the first of the item's backing-file base names present in the index
(paired with that name's last destination writer), and no match for a source
item none of whose base names is present. -/
theorem C5_matcher_characterization :
    (∀ (destItems : List MediaItem) (k : GoStr),
      buildDestFileIndex destItems k = lastDestWithBaseName destItems k) ∧
    (∀ destItems sourceItems : List MediaItem,
      MatchItemsByFilename destItems sourceItems = specMatch destItems sourceItems) := by
  refine ⟨buildIndex_lookup, ?_⟩
  intro destItems sourceItems
  unfold MatchItemsByFilename specMatch
  rw [matcher_foldl_eq_filterMap]
  simp only [List.nil_append]
  apply List.filterMap_congr
  intro s _
  rw [firstIndexMatch_eq_find]
  unfold specMatchOne
  simp only [buildIndex_lookup]
  cases hfind : (s.paths.map goBase).find?
      (fun n => (lastDestWithBaseName destItems n).isSome) with
  | none => rfl
  | some n =>
    cases hlast : lastDestWithBaseName destItems n <;> simp [hlast]

/-! ## Path mapping
Source: internal/config/config.go, `Config.MapSourcePathToLocal` and
`Config.MapLocalPathToDest` (the rsync.go and scp.go methods are the same
logic minus the same-volume fallback), together with Go's `strings.TrimPrefix`,
`strings.TrimSuffix`, `filepath.Join` and `filepath.Clean` for a Unix
separator (`filepath.ToSlash`/`FromSlash` are identities on Linux). -/

/-- Go `strings.TrimPrefix`: drop the prefix once when present. -/
def goTrimPfx (s p : GoStr) : GoStr :=
  if p.isPrefixOf s then s.drop p.length else s

/-- Go `strings.TrimSuffix`: drop the suffix once when present. -/
def goTrimSfx (s suffixStr : GoStr) : GoStr :=
  if suffixStr.isSuffixOf s then s.take (s.length - suffixStr.length) else s

/-- The inner backtracking of Go `filepath.Clean`'s `..` handling, on the
reversed output buffer: `out.w--` removes one character, then characters keep
being removed while the write cursor exceeds `dotdot` and the character just
removed is not a separator. -/
def popComponent : List Char → Nat → List Char
  | [], _ => []
  | c :: rest, dotdot =>
    if rest.length > dotdot ∧ c ≠ '/' then popComponent rest dotdot else rest

/-- The scanning loop of Go `filepath.Clean` (Unix): `revOut` is the output
buffer reversed, `dotdot` the backtracking floor.  Each iteration consumes at
least one input character, so fuel equal to the input length suffices; the
branches are, in order: skip a separator; skip a `.` element; handle a `..`
element (backtrack above the floor, or emit `..` when not rooted); copy a
normal element preceded by a separator unless at the start. -/
def cleanLoop (rooted : Bool) (fuel : Nat) (input revOut : List Char) (dotdot : Nat) :
    List Char :=
  match fuel with
  | 0 => revOut
  | fuel + 1 =>
    match input with
    | [] => revOut
    | c :: rest =>
      if c = '/' then
        cleanLoop rooted fuel rest revOut dotdot
      else if c = '.' ∧ (rest = [] ∨ rest.head? = some '/') then
        cleanLoop rooted fuel rest revOut dotdot
      else if c = '.' ∧ rest.head? = some '.' ∧
          (rest.tail = [] ∨ rest.tail.head? = some '/') then
        if revOut.length > dotdot then
          cleanLoop rooted fuel rest.tail (popComponent revOut dotdot) dotdot
        else if ¬rooted then
          let revOut2 := if revOut.length > 0 then '/' :: revOut else revOut
          cleanLoop rooted fuel rest.tail ('.' :: '.' :: revOut2) (revOut2.length + 2)
        else
          cleanLoop rooted fuel rest.tail revOut dotdot
      else
        let revOut2 :=
          if (rooted ∧ revOut.length ≠ 1) ∨ (¬rooted ∧ revOut.length ≠ 0) then
            '/' :: revOut
          else revOut
        let comp := input.takeWhile (fun ch => ch ≠ '/')
        cleanLoop rooted fuel (input.drop comp.length) (comp.reverse ++ revOut2) dotdot

/-- Go `filepath.Clean` on a Unix path: empty input gives "."; a rooted path
starts the output with the separator and the floor at 1; an empty output
gives ".". -/
def goClean (path : GoStr) : GoStr :=
  if path = [] then ['.']
  else
    let rooted := path.head? = some '/'
    let revOut0 : List Char := if rooted then ['/'] else []
    let dotdot0 : Nat := if rooted then 1 else 0
    let res := cleanLoop (path.head? = some '/') path.length
      (if rooted then path.drop 1 else path) revOut0 dotdot0
    if res.length = 0 then ['.'] else res.reverse

/-- Go `filepath.Join` of two elements: skip leading empty elements, join the
rest with the separator, and clean the result. -/
def goJoin (a b : GoStr) : GoStr :=
  if a ≠ [] then goClean (a ++ '/' :: b)
  else if b ≠ [] then goClean b
  else []

/-- The path-mapping configuration: the source-reported path prefix to strip,
the local root to substitute, and the destination root. -/
structure MapConfig where
  SourceReplaceFrom : GoStr
  SourceReplaceTo : GoStr
  DestRootDir : GoStr

/-- `Config.MapSourcePathToLocal`: empty paths are errors; an unconfigured
substitution is the identity mapping; otherwise the source path must carry
the configured prefix, which is stripped (with one following separator) and
replaced by the local root via `filepath.Join`. -/
def MapSourcePathToLocal (c : MapConfig) (sourcePath : GoStr) : Except Unit GoStr :=
  if sourcePath = [] then .error ()
  else if c.SourceReplaceFrom = [] then .ok sourcePath
  else if c.SourceReplaceTo = [] then .ok sourcePath
  else if ¬ (c.SourceReplaceFrom.isPrefixOf sourcePath) then .error ()
  else
    .ok (goJoin c.SourceReplaceTo
      (goTrimPfx (goTrimPfx sourcePath c.SourceReplaceFrom) ['/']))

/-- `Config.MapLocalPathToDest`: empty paths and an unconfigured destination
root are errors; with a local root configured, the local path must carry it,
and the remainder (after one separator) is appended to the destination root
(whose trailing separator is trimmed); with only the source prefix configured
(same-volume mounting) the prefix is stripped instead; with neither, only the
base name is kept. -/
def MapLocalPathToDest (c : MapConfig) (localPath : GoStr) : Except Unit GoStr :=
  if localPath = [] then .error ()
  else if c.DestRootDir = [] then .error ()
  else if c.SourceReplaceTo ≠ [] then
    if ¬ (c.SourceReplaceTo.isPrefixOf localPath) then .error ()
    else
      .ok (goTrimSfx c.DestRootDir ['/'] ++ '/' ::
        goTrimPfx (goTrimPfx localPath c.SourceReplaceTo) ['/'])
  else if c.SourceReplaceFrom ≠ [] then
    if ¬ (c.SourceReplaceFrom.isPrefixOf localPath) then .error ()
    else
      .ok (goTrimSfx c.DestRootDir ['/'] ++ '/' ::
        goTrimPfx (goTrimPfx localPath c.SourceReplaceFrom) ['/'])
  else
    .ok (goTrimSfx c.DestRootDir ['/'] ++ '/' :: goBase localPath)

theorem isPrefixOf_append (l₁ l₂ : GoStr) : l₁.isPrefixOf (l₁ ++ l₂) = true :=
  List.isPrefixOf_iff_prefix.mpr (List.prefix_append l₁ l₂)

theorem goTrimPfx_append (l₁ l₂ : GoStr) : goTrimPfx (l₁ ++ l₂) l₁ = l₂ := by
  unfold goTrimPfx
  rw [if_pos (isPrefixOf_append l₁ l₂)]
  exact List.drop_left l₁ l₂

theorem append_ne_nil_left {l₁ : GoStr} (h : l₁ ≠ []) (l₂ : GoStr) : l₁ ++ l₂ ≠ [] := by
  cases l₁ with
  | nil => exact absurd rfl h
  | cons c t => simp

/-- C9: with the source prefix, local root and destination root all
configured, mapping a source path that begins with the source prefix through
`MapSourcePathToLocal` and then `MapLocalPathToDest` yields exactly the
destination root (trailing separator trimmed) followed by a separator and the
source path's suffix after the source prefix (leading separator trimmed) —
the relative path is preserved through both translation stages.  The one side
condition says the composed local path is already a clean path, which holds
for every well-formed media path (no empty, `.` or `..` components). -/
theorem C9_path_mapping_roundtrip (c : MapConfig) (rest : GoStr)
    (hfrom : c.SourceReplaceFrom ≠ [])
    (hto : c.SourceReplaceTo ≠ [])
    (hdest : c.DestRootDir ≠ [])
    (hclean : goClean (c.SourceReplaceTo ++ '/' :: goTrimPfx rest ['/'])
      = c.SourceReplaceTo ++ '/' :: goTrimPfx rest ['/']) :
    MapSourcePathToLocal c (c.SourceReplaceFrom ++ rest)
        = .ok (c.SourceReplaceTo ++ '/' :: goTrimPfx rest ['/']) ∧
    MapLocalPathToDest c (c.SourceReplaceTo ++ '/' :: goTrimPfx rest ['/'])
        = .ok (goTrimSfx c.DestRootDir ['/'] ++ '/' :: goTrimPfx rest ['/']) := by
  constructor
  · unfold MapSourcePathToLocal
    rw [if_neg (append_ne_nil_left hfrom rest), if_neg hfrom, if_neg hto,
      if_neg (not_not_intro (isPrefixOf_append c.SourceReplaceFrom rest))]
    rw [goTrimPfx_append]
    unfold goJoin
    rw [if_pos hto, hclean]
  · unfold MapLocalPathToDest
    rw [if_neg (append_ne_nil_left hto ('/' :: goTrimPfx rest ['/'])), if_neg hdest,
      if_pos hto,
      if_neg (not_not_intro (isPrefixOf_append c.SourceReplaceTo ('/' :: goTrimPfx rest ['/'])))]
    rw [goTrimPfx_append]
    have h1 : ∀ X : GoStr, goTrimPfx ('/' :: X) ['/'] = X := by
      intro X
      unfold goTrimPfx
      rw [if_pos (by simp [List.isPrefixOf])]
      rfl
    rw [h1]

/-- C9 witness: source prefix "/data", local root "/local", destination root
"/dest"; the source path "/data/Movies/a.mkv" maps to local
"/local/Movies/a.mkv" and then to destination "/dest/Movies/a.mkv". -/
theorem C9_path_mapping_roundtrip_witness :
    MapSourcePathToLocal ⟨"/data".toList, "/local".toList, "/dest".toList⟩
        "/data/Movies/a.mkv".toList = .ok "/local/Movies/a.mkv".toList ∧
    MapLocalPathToDest ⟨"/data".toList, "/local".toList, "/dest".toList⟩
        "/local/Movies/a.mkv".toList = .ok "/dest/Movies/a.mkv".toList := by
  have h := C9_path_mapping_roundtrip ⟨"/data".toList, "/local".toList, "/dest".toList⟩
    "/Movies/a.mkv".toList (by decide) (by decide) (by decide) (by decide)
  constructor
  · exact h.1
  · exact h.2

end Syncarr
